import Mathlib

/-!
Verification of the xoshiro/xoroshiro pseudorandom generator family
against its specification.

The Rust sources are embedded shallowly: `u64`/`u32` values become `Nat`
with explicit `% 2 ^ 64` (resp. `% 2 ^ 32`) where wrapping matters,
in-place state mutation becomes explicit state passing, and a panicking
constructor becomes an `Option`-valued function (`none` = panic).
-/

/-- Semantics of Rust `u64::rotate_left`: rotate a 64-bit word left by `k`
bits (used via `.rotate_left(..)` in `common.rs` and the variant files). -/
def rotl64 (x k : Nat) : Nat :=
  ((x <<< k) ||| (x >>> (64 - k))) % 2 ^ 64

/-- The free function `rotl` of `src/xoroshiro128starstar.rs`:
`(x << k) | (x >> (64 - k))` with Rust `u64` shift semantics (the left
shift truncates to 64 bits). -/
def rotl (x k : Nat) : Nat :=
  ((x <<< k) % 2 ^ 64) ||| (x >>> (64 - k))

/-- The free function `starstar` of `src/xoroshiro128starstar.rs`:
`rotl(s0.wrapping_mul(5), 7).wrapping_mul(9)`. -/
def starstar (s0 : Nat) : Nat :=
  (rotl ((s0 * 5) % 2 ^ 64) 7 * 9) % 2 ^ 64

/-- The `starstar!` macro of `src/common.rs`:
`$x.wrapping_mul(5).rotate_left(7).wrapping_mul(9)`. -/
def starstarMacro (x : Nat) : Nat :=
  (rotl64 ((x * 5) % 2 ^ 64) 7 * 9) % 2 ^ 64

/-- State of the two-word 64-bit generators (`Xoroshiro128Plus` and
`Xoroshiro128StarStar` both hold fields `s0 : u64, s1 : u64`). -/
structure XoroState where
  s0 : Nat
  s1 : Nat
deriving DecidableEq

/-- The `impl_xoroshiro!` macro of `src/common.rs` (the xoroshiro state
transition).  The same three lines appear inline in
`Xoroshiro128StarStar::next_u64`, and `Xoroshiro128Plus::next_u64` invokes
it under the historical name `impl_xoroshiro_u64!`; the in-file reference
test vectors pin this body for both variants. -/
def impl_xoroshiro (s : XoroState) : XoroState :=
  let s1 := s.s1 ^^^ s.s0
  let s0 := rotl64 s.s0 24 ^^^ s1 ^^^ ((s1 <<< 16) % 2 ^ 64)
  let s1 := rotl64 s1 37
  ⟨s0, s1⟩

/-- Iterated xoroshiro state transition (`n` consecutive `next_u64`
state updates). -/
def stepN : Nat → XoroState → XoroState
  | 0, s => s
  | n + 1, s => stepN n (impl_xoroshiro s)

/-- `Xoroshiro128Plus::next_u64`: return `s0.wrapping_add(s1)` computed
before the state update, then update the state. -/
def plus_next_u64 (s : XoroState) : Nat × XoroState :=
  ((s.s0 + s.s1) % 2 ^ 64, impl_xoroshiro s)

/-- `Xoroshiro128Plus::next_u32`: `(self.next_u64() >> 32) as u32`. -/
def plus_next_u32 (s : XoroState) : Nat × XoroState :=
  let r := plus_next_u64 s
  ((r.1 >>> 32) % 2 ^ 32, r.2)

/-- `Xoroshiro128StarStar::next_u64`: return `starstar(s0)` computed from
the pre-update `s0`, then update the state. -/
def ss_next_u64 (s : XoroState) : Nat × XoroState :=
  (starstar s.s0, impl_xoroshiro s)

/-- `Xoroshiro128StarStar::next_u32`: `self.next_u64() as u32`. -/
def ss_next_u32 (s : XoroState) : Nat × XoroState :=
  let r := ss_next_u64 s
  (r.1 % 2 ^ 32, r.2)

/-- Little-endian word decoding of a byte list
(`rand_core::le::read_u64_into` / `read_u32_into` read consecutive
little-endian words; this reads one word from its byte list). -/
def read_le (bs : List Nat) : Nat :=
  bs.foldr (fun b acc => acc * 256 + b % 256) 0

/-- The little-endian bytes of a `u64` value (used by
`byteorder::LittleEndian::write_u64` and by little-endian word writes). -/
def le_bytes_u64 (x : Nat) : List Nat :=
  [x % 256, x / 2 ^ 8 % 256, x / 2 ^ 16 % 256, x / 2 ^ 24 % 256,
   x / 2 ^ 32 % 256, x / 2 ^ 40 % 256, x / 2 ^ 48 % 256, x / 2 ^ 56 % 256]

/-- `Xoroshiro128Plus::from_seed`: panics (`none`) on the all-zero 16-byte
seed, otherwise decodes two little-endian `u64` state words. -/
def plus_from_seed (seed : List Nat) : Option XoroState :=
  if seed = List.replicate 16 0 then none
  else some ⟨read_le (seed.take 8), read_le ((seed.drop 8).take 8)⟩

/-- `Xoroshiro128StarStar::from_seed`: panics (`none`) on the all-zero
16-byte seed, otherwise decodes two little-endian `u64` state words. -/
def ss_from_seed (seed : List Nat) : Option XoroState :=
  if seed = List.replicate 16 0 then none
  else some ⟨read_le (seed.take 8), read_le ((seed.drop 8).take 8)⟩

/-- State of `Xoroshiro64Star` (`s0 : u32, s1 : u32`). -/
structure Xoro64State where
  s0 : Nat
  s1 : Nat
deriving DecidableEq

/-- `Xoroshiro64Star::from_seed`: panics (`none`) on the all-zero 8-byte
seed, otherwise decodes two little-endian `u32` state words. -/
def star64_from_seed (seed : List Nat) : Option Xoro64State :=
  if seed = List.replicate 8 0 then none
  else some ⟨read_le (seed.take 4), read_le ((seed.drop 4).take 4)⟩

/-- `Xoroshiro64Star::from_seed_u64`: writes the seed as 8 little-endian
bytes with `LittleEndian::write_u64` and passes them to `from_seed`
(note: despite its doc comment it does not use `SplitMix64`). -/
def star64_from_seed_u64 (seed : Nat) : Option Xoro64State :=
  star64_from_seed (le_bytes_u64 seed)

/-- State of `Xoshiro512Plus` (`s : [u64; 8]`). -/
structure Xoshiro512Plus where
  s : List Nat
deriving DecidableEq

/-- `Xoshiro512Plus::from_seed`: decodes eight little-endian `u64` words
from the 64-byte seed and adopts them as the state.  It performs no
all-zero check. -/
def xoshiro512plus_from_seed (seed : List Nat) : Xoshiro512Plus :=
  ⟨(List.range 8).map fun i => read_le ((seed.drop (8 * i)).take 8)⟩

/-- Modelled from the spec: the `impl_xoshiro_large!` macro invoked by
`Xoshiro512Plus::next_u64` is code of this repository missing from
`src/` (`common.rs` defines only the 4-word `impl_xoshiro_u64!`).  Per
spec §9 its shift/rotate constants are "sourced from the original
published reference constants", so this is the published reference
xoshiro512 update (shift 11, rotate 21); the reference test vector kept
in `src/xoshiro512plus.rs` validates it (see
`xoshiro512plus_reference_vector` below). -/
def impl_xoshiro_large (st : List Nat) : List Nat :=
  let g := fun i => st.getD i 0
  let t := (g 1 <<< 11) % 2 ^ 64
  let s2 := g 2 ^^^ g 0
  let s5 := g 5 ^^^ g 1
  let s1 := g 1 ^^^ s2
  let s7 := g 7 ^^^ g 3
  let s3 := g 3 ^^^ g 4
  let s4 := g 4 ^^^ s5
  let s0 := g 0 ^^^ g 6
  let s6 := (g 6 ^^^ s7) ^^^ t
  let s7 := rotl64 s7 21
  [s0, s1, s2, s3, s4, s5, s6, s7]

/-- `Xoshiro512Plus::next_u64`: return `s[0].wrapping_add(s[2])` computed
before the state update, then update the state. -/
def x512_next_u64 (g : Xoshiro512Plus) : Nat × Xoshiro512Plus :=
  ((g.s.getD 0 0 + g.s.getD 2 0) % 2 ^ 64, ⟨impl_xoshiro_large g.s⟩)

/-- `Xoshiro512Plus::next_u32`: `self.next_u64() as u32`. -/
def x512_next_u32 (g : Xoshiro512Plus) : Nat × Xoshiro512Plus :=
  let r := x512_next_u64 g
  (r.1 % 2 ^ 32, r.2)

/-- First `k` outputs of `Xoroshiro128StarStar::next_u64`. -/
def ss_outputs : Nat → XoroState → List Nat
  | 0, _ => []
  | k + 1, s => (ss_next_u64 s).1 :: ss_outputs k (ss_next_u64 s).2

/-- First `k` outputs of `Xoroshiro128Plus::next_u64`. -/
def plus_outputs : Nat → XoroState → List Nat
  | 0, _ => []
  | k + 1, s => (plus_next_u64 s).1 :: plus_outputs k (plus_next_u64 s).2

/-- First `k` outputs of `Xoshiro512Plus::next_u64`. -/
def x512_outputs : Nat → Xoshiro512Plus → List Nat
  | 0, _ => []
  | k + 1, g => (x512_next_u64 g).1 :: x512_outputs k (x512_next_u64 g).2

/-- The reference test vector of `src/xoshiro512plus.rs` (the 64 seed
bytes encode state words 1..8 little-endian), validating the modelled
`impl_xoshiro_large` transition. -/
theorem xoshiro512plus_reference_vector :
    x512_outputs 10 (xoshiro512plus_from_seed
      (((List.range 8).map fun w => le_bytes_u64 (w + 1)).flatten)) =
    [4, 8, 4113, 25169936, 52776585412635, 57174648719367,
     9223482039571869716, 9331471677901559830, 9340533895746033672,
     14078399799840753678] := by
  decide

/-! ### Bitwise toolkit -/

theorem xor_left_comm_nat (a b c : Nat) : a ^^^ (b ^^^ c) = b ^^^ (a ^^^ c) := by
  rw [← Nat.xor_assoc, Nat.xor_comm a b, Nat.xor_assoc]

theorem testBit_ge_64 {x : Nat} (hx : x < 2 ^ 64) {i : Nat} (h : 64 ≤ i) :
    x.testBit i = false :=
  Nat.testBit_eq_false_of_lt
    (lt_of_lt_of_le hx (Nat.pow_le_pow_right (by norm_num) h))

theorem xor_shiftLeft_distrib (a b k : Nat) :
    (a ^^^ b) <<< k = a <<< k ^^^ b <<< k := by
  apply Nat.eq_of_testBit_eq; intro i
  simp only [Nat.testBit_shiftLeft, Nat.testBit_xor]
  by_cases h : k ≤ i <;> simp [h]

theorem xor_shiftRight_distrib (a b k : Nat) :
    (a ^^^ b) >>> k = a >>> k ^^^ b >>> k := by
  apply Nat.eq_of_testBit_eq; intro i
  simp [Nat.testBit_shiftRight, Nat.testBit_xor]

theorem xor_mod_two_pow (a b n : Nat) :
    (a ^^^ b) % 2 ^ n = a % 2 ^ n ^^^ b % 2 ^ n := by
  apply Nat.eq_of_testBit_eq; intro i
  simp only [Nat.testBit_mod_two_pow, Nat.testBit_xor]
  by_cases h : i < n <;> simp [h]

theorem rotl_eq_rotl64 (y k : Nat) (hy : y < 2 ^ 64) (hk0 : 0 < k) (hk : k < 64) :
    rotl y k = rotl64 y k := by
  apply Nat.eq_of_testBit_eq; intro i
  unfold rotl rotl64
  simp only [Nat.testBit_mod_two_pow, Nat.testBit_lor, Nat.testBit_shiftLeft,
    Nat.testBit_shiftRight]
  by_cases h64 : i < 64
  · by_cases hki : k ≤ i
    · have h1 : y.testBit (64 - k + i) = false := testBit_ge_64 hy (by omega)
      simp [h64, hki, h1]
    · simp [h64, hki]
  · have h1 : y.testBit (64 - k + i) = false := testBit_ge_64 hy (by omega)
    simp [h64, h1]

theorem rotl64_xor (x y k : Nat) (hx : x < 2 ^ 64) (hy : y < 2 ^ 64)
    (hk0 : 0 < k) (hk : k < 64) :
    rotl64 (x ^^^ y) k = rotl64 x k ^^^ rotl64 y k := by
  apply Nat.eq_of_testBit_eq; intro i
  unfold rotl64
  simp only [Nat.testBit_mod_two_pow, Nat.testBit_lor, Nat.testBit_shiftLeft,
    Nat.testBit_shiftRight, Nat.testBit_xor]
  by_cases h64 : i < 64
  · by_cases hki : k ≤ i
    · have h1 : x.testBit (64 - k + i) = false := testBit_ge_64 hx (by omega)
      have h2 : y.testBit (64 - k + i) = false := testBit_ge_64 hy (by omega)
      simp [h64, hki, h1, h2]
    · simp [h64, hki]
  · simp [h64]

theorem rotl64_lt (x k : Nat) : rotl64 x k < 2 ^ 64 :=
  Nat.mod_lt _ (by norm_num)

/-! ### The jump operator of `Xoroshiro128StarStar` -/

/-- Componentwise XOR of two-word states (the accumulator update
`s0 ^= self.s0; s1 ^= self.s1` inside `jump`). -/
def xorS (a b : XoroState) : XoroState :=
  ⟨a.s0 ^^^ b.s0, a.s1 ^^^ b.s1⟩

/-- One inner-loop iteration of `Xoroshiro128StarStar::jump`: fold the
current state into the accumulator when bit `b` of the jump word `j` is
set, then advance the live generator by one `next_u64` state update. -/
def jump_iter (j : Nat) (p : XoroState × XoroState) (b : Nat) :
    XoroState × XoroState :=
  (if j &&& (1 <<< b) ≠ 0 then xorS p.1 p.2 else p.1, impl_xoroshiro p.2)

/-- The `JUMP` constant of `Xoroshiro128StarStar::jump`. -/
def JUMP_128 : List Nat := [0xdf900294d8f554a5, 0x170865df4b3201fc]

/-- `Xoroshiro128StarStar::jump`: scan the two jump words bit by bit,
accumulating XORs of intermediate states, and adopt the accumulator. -/
def ss_jump (s : XoroState) : XoroState :=
  (JUMP_128.foldl (fun p j => (List.range 64).foldl (jump_iter j) p)
    (⟨0, 0⟩, s)).1

/-- Both state words are genuine 64-bit values. -/
def BoundedX (s : XoroState) : Prop := s.s0 < 2 ^ 64 ∧ s.s1 < 2 ^ 64

theorem boundedX_xorS {a b : XoroState} (ha : BoundedX a) (hb : BoundedX b) :
    BoundedX (xorS a b) :=
  ⟨Nat.xor_lt_two_pow ha.1 hb.1, Nat.xor_lt_two_pow ha.2 hb.2⟩

theorem boundedX_impl_xoroshiro {s : XoroState} (hs : BoundedX s) :
    BoundedX (impl_xoroshiro s) := by
  unfold impl_xoroshiro
  refine ⟨?_, rotl64_lt _ _⟩
  exact Nat.xor_lt_two_pow
    (Nat.xor_lt_two_pow (rotl64_lt _ _) (Nat.xor_lt_two_pow hs.2 hs.1))
    (Nat.mod_lt _ (by norm_num))

/-- The xoroshiro state transition is linear over componentwise XOR. -/
theorem impl_xoroshiro_xorS (a b : XoroState) (ha : BoundedX a) (hb : BoundedX b) :
    impl_xoroshiro (xorS a b) = xorS (impl_xoroshiro a) (impl_xoroshiro b) := by
  obtain ⟨ha0, ha1⟩ := ha
  obtain ⟨hb0, hb1⟩ := hb
  unfold impl_xoroshiro xorS
  simp only [XoroState.mk.injEq]
  have hS : (a.s1 ^^^ b.s1) ^^^ (a.s0 ^^^ b.s0) = (a.s1 ^^^ a.s0) ^^^ (b.s1 ^^^ b.s0) := by
    simp [Nat.xor_assoc, Nat.xor_comm, xor_left_comm_nat]
  have hA : a.s1 ^^^ a.s0 < 2 ^ 64 := Nat.xor_lt_two_pow ha1 ha0
  have hB : b.s1 ^^^ b.s0 < 2 ^ 64 := Nat.xor_lt_two_pow hb1 hb0
  constructor
  · rw [hS, rotl64_xor _ _ _ ha0 hb0 (by norm_num) (by norm_num),
      xor_shiftLeft_distrib, xor_mod_two_pow]
    simp [Nat.xor_assoc, Nat.xor_comm, xor_left_comm_nat]
  · rw [hS, rotl64_xor _ _ _ hA hB (by norm_num) (by norm_num)]

theorem jump_iter_stepPair (j b : Nat) (p : XoroState × XoroState)
    (h1 : BoundedX p.1) (h2 : BoundedX p.2) :
    jump_iter j (impl_xoroshiro p.1, impl_xoroshiro p.2) b =
      (impl_xoroshiro (jump_iter j p b).1, impl_xoroshiro (jump_iter j p b).2) := by
  unfold jump_iter
  by_cases h : j &&& (1 <<< b) ≠ 0
  · rw [if_pos h, if_pos h, impl_xoroshiro_xorS p.1 p.2 h1 h2]
  · rw [if_neg h, if_neg h]

theorem boundedX_jump_iter (j b : Nat) (p : XoroState × XoroState)
    (h1 : BoundedX p.1) (h2 : BoundedX p.2) :
    BoundedX (jump_iter j p b).1 ∧ BoundedX (jump_iter j p b).2 := by
  unfold jump_iter
  refine ⟨?_, boundedX_impl_xoroshiro h2⟩
  by_cases h : j &&& (1 <<< b) ≠ 0
  · simpa [h] using boundedX_xorS h1 h2
  · simpa [h] using h1

theorem boundedX_foldl_jump (L : List Nat) (j : Nat) :
    ∀ p : XoroState × XoroState, BoundedX p.1 → BoundedX p.2 →
      BoundedX (L.foldl (jump_iter j) p).1 ∧ BoundedX (L.foldl (jump_iter j) p).2 := by
  induction L with
  | nil => exact fun p h1 h2 => ⟨h1, h2⟩
  | cons b L ih =>
    intro p h1 h2
    have h := boundedX_jump_iter j b p h1 h2
    exact ih (jump_iter j p b) h.1 h.2

theorem foldl_jump_stepPair (L : List Nat) (j : Nat) :
    ∀ p : XoroState × XoroState, BoundedX p.1 → BoundedX p.2 →
      L.foldl (jump_iter j) (impl_xoroshiro p.1, impl_xoroshiro p.2) =
        (impl_xoroshiro (L.foldl (jump_iter j) p).1,
         impl_xoroshiro (L.foldl (jump_iter j) p).2) := by
  induction L with
  | nil => exact fun p _ _ => rfl
  | cons b L ih =>
    intro p h1 h2
    have hb := boundedX_jump_iter j b p h1 h2
    calc (b :: L).foldl (jump_iter j) (impl_xoroshiro p.1, impl_xoroshiro p.2)
        = L.foldl (jump_iter j) (jump_iter j (impl_xoroshiro p.1, impl_xoroshiro p.2) b) := rfl
      _ = L.foldl (jump_iter j)
            (impl_xoroshiro (jump_iter j p b).1, impl_xoroshiro (jump_iter j p b).2) := by
          rw [jump_iter_stepPair j b p h1 h2]
      _ = (impl_xoroshiro (L.foldl (jump_iter j) (jump_iter j p b)).1,
           impl_xoroshiro (L.foldl (jump_iter j) (jump_iter j p b)).2) :=
          ih (jump_iter j p b) hb.1 hb.2

/-- C4: for `Xoroshiro128StarStar`, `jump()` commutes with the single-step
state transition: for every state, calling `next_u64` once and then `jump`
yields exactly the same final state as calling `jump` and then `next_u64`
once. -/
theorem xoroshiro128starstar_jump_step_comm (s : XoroState)
    (h0 : s.s0 < 2 ^ 64) (h1 : s.s1 < 2 ^ 64) :
    ss_jump ((ss_next_u64 s).2) = (ss_next_u64 (ss_jump s)).2 := by
  have hs : BoundedX s := ⟨h0, h1⟩
  have hzero : BoundedX ⟨0, 0⟩ := ⟨by norm_num, by norm_num⟩
  show ss_jump (impl_xoroshiro s) = impl_xoroshiro (ss_jump s)
  unfold ss_jump JUMP_128
  simp only [List.foldl_cons, List.foldl_nil]
  have h01 : ((⟨0, 0⟩ : XoroState), impl_xoroshiro s)
      = (impl_xoroshiro ⟨0, 0⟩, impl_xoroshiro s) := by
    rw [show impl_xoroshiro ⟨0, 0⟩ = (⟨0, 0⟩ : XoroState) from by decide]
  rw [h01, foldl_jump_stepPair (List.range 64) _ (⟨0, 0⟩, s) hzero hs]
  have hX := boundedX_foldl_jump (List.range 64) 0xdf900294d8f554a5 (⟨0, 0⟩, s)
    hzero hs
  rw [foldl_jump_stepPair (List.range 64) _ _ hX.1 hX.2]

/-- Witness for C4 at the concrete state (1, 2). -/
theorem xoroshiro128starstar_jump_step_comm_witness :
    (1 : Nat) < 2 ^ 64 ∧ (2 : Nat) < 2 ^ 64 ∧
      ss_jump ((ss_next_u64 ⟨1, 2⟩).2) = (ss_next_u64 (ss_jump ⟨1, 2⟩)).2 :=
  ⟨by norm_num, by norm_num,
    xoroshiro128starstar_jump_step_comm ⟨1, 2⟩ (by norm_num) (by norm_num)⟩

/-- C1 counterexample: `Xoshiro512Plus::from_seed` accepts the all-zero
64-byte seed and returns a generator (with all-zero state) instead of
failing with InvalidSeed. -/
theorem xoshiro512plus_accepts_zero_seed :
    xoshiro512plus_from_seed (List.replicate 64 0) = ⟨List.replicate 8 0⟩ := by
  decide

/-- C1 amended: calling `from_seed` with an all-zero byte buffer of the
required length fails (panics) for `Xoroshiro128Plus`,
`Xoroshiro128StarStar` and `Xoroshiro64Star`, but `Xoshiro512Plus`
performs no zero check and returns a generator with all-zero state. -/
theorem zero_seed_rejection_amended :
    plus_from_seed (List.replicate 16 0) = none ∧
    ss_from_seed (List.replicate 16 0) = none ∧
    star64_from_seed (List.replicate 8 0) = none ∧
    xoshiro512plus_from_seed (List.replicate 64 0) = ⟨List.replicate 8 0⟩ :=
  ⟨by decide, by decide, by decide, by decide⟩

/-- C2: contrary to the claim (and to the function's own doc comment,
which promises SplitMix64 expansion), `Xoroshiro64Star::from_seed_u64(0)`
does not succeed: it writes the raw all-zero little-endian bytes and
`from_seed` panics on them (`none` in this embedding). -/
theorem xoroshiro64star_from_seed_u64_zero_panics :
    star64_from_seed_u64 0 = none := by
  decide

/-- C3: `Xoroshiro128StarStar` seeded from the 16 little-endian bytes
encoding state words (1, 2) yields 5760, 97769243520,
9706862127477703552 from the first three `next_u64` calls. -/
theorem xoroshiro128starstar_reference_first3 :
    ss_from_seed (le_bytes_u64 1 ++ le_bytes_u64 2) = some ⟨1, 2⟩ ∧
    ss_outputs 3 ⟨1, 2⟩ = [5760, 97769243520, 9706862127477703552] :=
  ⟨by decide, by decide⟩

/-- C8: `Xoroshiro128Plus` seeded from the 16 little-endian bytes encoding
state words (1, 2) yields 3, 412333834243, 2360170716294286339 from the
first three `next_u64` calls. -/
theorem xoroshiro128plus_reference_first3 :
    plus_from_seed (le_bytes_u64 1 ++ le_bytes_u64 2) = some ⟨1, 2⟩ ∧
    plus_outputs 3 ⟨1, 2⟩ = [3, 412333834243, 2360170716294286339] :=
  ⟨by decide, by decide⟩

/-- C5 counterexample: for `Xoshiro512Plus` at the state with
`s[0] = 1` and all other words zero, `next_u32` returns 1, which is not
the high 32 bits (0) of the `next_u64` value 1 — so the claim that every
"+" 64-bit variant takes the high half is false. -/
theorem xoshiro512plus_next_u32_not_high :
    (x512_next_u32 ⟨1 :: List.replicate 7 0⟩).1 ≠
      (x512_next_u64 ⟨1 :: List.replicate 7 0⟩).1 / 2 ^ 32 := by
  decide

/-- C5 amended: `Xoroshiro128Plus::next_u32` returns the high 32 bits of
the `next_u64` value from the same state, while `Xoshiro512Plus::next_u32`
returns the low 32 bits; both advance the state exactly as one `next_u64`
call does. -/
theorem next_u32_half_amended :
    (∀ s : XoroState,
      plus_next_u32 s = ((plus_next_u64 s).1 / 2 ^ 32, (plus_next_u64 s).2)) ∧
    (∀ g : Xoshiro512Plus,
      x512_next_u32 g = ((x512_next_u64 g).1 % 2 ^ 32, (x512_next_u64 g).2)) := by
  constructor
  · intro s
    have hlt : (plus_next_u64 s).1 < 2 ^ 64 := Nat.mod_lt _ (by norm_num)
    show (((plus_next_u64 s).1 >>> 32) % 2 ^ 32, (plus_next_u64 s).2)
      = ((plus_next_u64 s).1 / 2 ^ 32, (plus_next_u64 s).2)
    have h : ((plus_next_u64 s).1 >>> 32) % 2 ^ 32 = (plus_next_u64 s).1 / 2 ^ 32 := by
      rw [Nat.shiftRight_eq_div_pow]
      apply Nat.mod_eq_of_lt
      rw [Nat.div_lt_iff_lt_mul (by norm_num : 0 < 2 ^ 32)]
      calc (plus_next_u64 s).1 < 2 ^ 64 := hlt
        _ = 2 ^ 32 * 2 ^ 32 := by norm_num
    rw [h]
  · intro g
    rfl

/-- C7: for `Xoroshiro128StarStar` in every state, `next_u64` returns the
pre-update `s0` multiplied by 5 (mod 2^64), rotated left by 7 bits, then
multiplied by 9 (mod 2^64); the value is a function of the pre-update
state only, so the state update has no effect on it. -/
theorem xoroshiro128starstar_output_scrambler (s : XoroState) :
    (ss_next_u64 s).1 = (rotl64 ((s.s0 * 5) % 2 ^ 64) 7 * 9) % 2 ^ 64 := by
  show starstar s.s0 = _
  unfold starstar
  rw [rotl_eq_rotl64 _ _ (Nat.mod_lt _ (by norm_num)) (by norm_num) (by norm_num)]

/-- C10: for every input, the free function `starstar` of
`xoroshiro128starstar.rs` (shift-based rotation) agrees with the
`starstar!` macro expression of `common.rs` (`rotate_left`-based). -/
theorem starstar_fn_eq_macro (x : Nat) : starstar x = starstarMacro x := by
  unfold starstar starstarMacro
  rw [rotl_eq_rotl64 _ _ (Nat.mod_lt _ (by norm_num)) (by norm_num) (by norm_num)]

/-- C9: the all-zero state is a fixed point of the two-word 64-bit
transition: from state (0, 0) both `Xoroshiro128Plus` and
`Xoroshiro128StarStar` return 0 from `next_u64` and leave the state
all-zero, and every subsequent draw also returns 0. -/
theorem zero_state_fixed_point :
    plus_next_u64 ⟨0, 0⟩ = (0, ⟨0, 0⟩) ∧ ss_next_u64 ⟨0, 0⟩ = (0, ⟨0, 0⟩) ∧
    ∀ n : Nat, stepN n ⟨0, 0⟩ = ⟨0, 0⟩ ∧
      (plus_next_u64 (stepN n ⟨0, 0⟩)).1 = 0 ∧
      (ss_next_u64 (stepN n ⟨0, 0⟩)).1 = 0 := by
  have hz : ∀ n : Nat, stepN n ⟨0, 0⟩ = (⟨0, 0⟩ : XoroState) := by
    intro n
    induction n with
    | zero => rfl
    | succ n ih =>
      show stepN n (impl_xoroshiro ⟨0, 0⟩) = _
      rw [show impl_xoroshiro ⟨0, 0⟩ = (⟨0, 0⟩ : XoroState) from by decide]
      exact ih
  refine ⟨by decide, by decide, fun n => ⟨hz n, ?_, ?_⟩⟩
  · rw [hz n]; decide
  · rw [hz n]; decide

/-! ### `fill_bytes` for `Xoroshiro128Plus` -/

/-- Modelled from the spec: `Xoroshiro128Plus::fill_bytes` delegates to
`rand_core::impls::fill_bytes_via_next`, dependency code that is not under
`src/`.  Spec §4.3: repeatedly draw native 64-bit words, write each in
little-endian byte order into the buffer, truncating the final draw to
exactly the number of bytes remaining. -/
def fill_bytes (s : XoroState) (n : Nat) : List Nat × XoroState :=
  if h : n = 0 then ([], s)
  else if h2 : n < 8 then
    ((le_bytes_u64 (plus_next_u64 s).1).take n, (plus_next_u64 s).2)
  else
    (le_bytes_u64 (plus_next_u64 s).1 ++ (fill_bytes (plus_next_u64 s).2 (n - 8)).1,
     (fill_bytes (plus_next_u64 s).2 (n - 8)).2)
termination_by n
decreasing_by omega

/-- Little-endian concatenation of `k` consecutive
`Xoroshiro128Plus::next_u64` draws. -/
def draw_bytes_u64 : Nat → XoroState → List Nat
  | 0, _ => []
  | k + 1, s => le_bytes_u64 (plus_next_u64 s).1 ++ draw_bytes_u64 k (plus_next_u64 s).2

theorem length_le_bytes_u64 (x : Nat) : (le_bytes_u64 x).length = 8 := rfl

/-- C6: for `Xoroshiro128Plus`, `fill_bytes` of a buffer of length `n`
writes the little-endian concatenation of ⌈n/8⌉ consecutive `next_u64`
draws truncated to `n` bytes (exactly `n/8` whole draws when `8 ∣ n`),
and advances the state by exactly ⌈n/8⌉ draws — one extra draw for a
truncated tail. -/
theorem xoroshiro128plus_fill_bytes_spec :
    ∀ n : Nat, ∀ s : XoroState,
      fill_bytes s n
        = ((draw_bytes_u64 ((n + 7) / 8) s).take n, stepN ((n + 7) / 8) s) := by
  intro n
  induction n using Nat.strong_induction_on with
  | _ n ih =>
    intro s
    rw [fill_bytes]
    by_cases h : n = 0
    · subst h
      simp [draw_bytes_u64, stepN]
    · rw [dif_neg h]
      by_cases h2 : n < 8
      · rw [dif_pos h2]
        have hk : (n + 7) / 8 = 1 := by omega
        rw [hk]
        simp [draw_bytes_u64, stepN, plus_next_u64]
      · rw [dif_neg h2]
        have hk : (n + 7) / 8 = (n - 8 + 7) / 8 + 1 := by omega
        rw [hk, ih (n - 8) (by omega) ((plus_next_u64 s).2)]
        have hval : (draw_bytes_u64 ((n - 8 + 7) / 8 + 1) s).take n
            = le_bytes_u64 (plus_next_u64 s).1
              ++ (draw_bytes_u64 ((n - 8 + 7) / 8) (plus_next_u64 s).2).take (n - 8) := by
          show (le_bytes_u64 (plus_next_u64 s).1
              ++ draw_bytes_u64 ((n - 8 + 7) / 8) (plus_next_u64 s).2).take n = _
          rw [List.take_append_eq_append_take, length_le_bytes_u64,
            List.take_of_length_le (by rw [length_le_bytes_u64]; omega)]
        rw [hval]
        rfl
